import Mathlib

/-!
Shallow embedding of the `Wrapper` ref class (src/Wrapper/Wrapper.h), a
pass-through facade over the MSVC C runtime time and pseudo-random
primitives.  The five static methods `Time`, `TimeCast`, `SRand`, `Rand`
and `RandMax` become a step function on an explicit process state: the
process-wide generator word mutated by `srand`/`rand`, together with the
platform clock modelled as an oracle of successive `time(0)` readings.
-/

namespace Wrapper

/-- Models the MSVC CRT generator state transition performed by the
platform `rand` that `Wrapper::Rand` delegates to: the 32-bit word
`holdrand` is replaced by `holdrand * 214013 + 2531011` (unsigned
32-bit arithmetic). -/
def crtNext (st : Nat) : Nat := (st * 214013 + 2531011) % 2 ^ 32

/-- Models the platform `rand()`: advance the generator word with
`crtNext`, then return `(holdrand >> 16) & 0x7fff` together with the
new word. -/
def crtRand (st : Nat) : Nat × Nat :=
  ((crtNext st / 2 ^ 16) % 2 ^ 15, crtNext st)

/-- Models the platform `srand(s)`: the generator word becomes the
32-bit unsigned seed. -/
def crtSrand (s : Nat) : Nat := s % 2 ^ 32

/-- `Wrapper::RandMax` returns the platform constant `RAND_MAX`
(`0x7fff` in the MSVC C runtime the wrapper compiles against). -/
def RAND_MAX : Nat := 32767

/-- Models the implicit conversion from the 64-bit `time_t` value to
`int` performed by `return time(0);` inside `Wrapper::TimeCast` on the
MSVC target: truncation to the low 32 bits, read back as a
two's-complement signed value. -/
def toInt32 (x : Int) : Int :=
  if x % 2 ^ 32 < 2 ^ 31 then x % 2 ^ 32 else x % 2 ^ 32 - 2 ^ 32

/-- Process state visible to the wrapper: the process-wide CRT
generator word, the platform clock modelled as an oracle giving the
reading of each successive `time(0)` call, and how many clock reads
have happened so far. -/
structure ProcState where
  rng : Nat
  clock : Nat → Int
  reads : Nat

/-- One call to one of the five static methods of `Wrapper`. -/
inductive Op where
  | time
  | timeCast
  | srandOp (s : Nat)
  | randOp
  | randMax
deriving DecidableEq

/-- Value returned by a single call: `Time` yields a C `long long`,
`TimeCast`, `Rand` and `RandMax` yield a C `int`, `SRand` returns
`void`. -/
inductive Out where
  | int64 (v : Int)
  | int32 (v : Int)
  | unit
deriving DecidableEq

/-- Semantics of one call: each branch is the body of the
corresponding method in src/Wrapper/Wrapper.h. -/
def step : Op → ProcState → Out × ProcState
  | .time, σ => (.int64 (σ.clock σ.reads), { σ with reads := σ.reads + 1 })
  | .timeCast, σ =>
      (.int32 (toInt32 (σ.clock σ.reads)), { σ with reads := σ.reads + 1 })
  | .srandOp s, σ => (.unit, { σ with rng := crtSrand s })
  | .randOp, σ => (.int32 (Int.ofNat (crtRand σ.rng).1), { σ with rng := (crtRand σ.rng).2 })
  | .randMax, σ => (.int32 (Int.ofNat RAND_MAX), σ)

/-- Run a sequence of calls, collecting the returned values in order. -/
def run : List Op → ProcState → List Out × ProcState
  | [], σ => ([], σ)
  | op :: ops, σ =>
      ((step op σ).1 :: (run ops (step op σ).2).1, (run ops (step op σ).2).2)

/-- The stream of `rand` values drawn from a given generator word. -/
def randList (st : Nat) : Nat → List Nat
  | 0 => []
  | n + 1 => (crtRand st).1 :: randList (crtRand st).2 n

/-- Tests whether a call touches the process-wide generator word. -/
def isRngOp : Op → Bool
  | .srandOp _ => true
  | .randOp => true
  | _ => false

/-- Generator word and drawn values of a call sequence, threading only
the generator word: time and bound queries are skipped. -/
def rngRun : List Op → Nat → List Nat
  | [], _ => []
  | .srandOp s :: ops, _ => rngRun ops (crtSrand s)
  | .randOp :: ops, st => (crtRand st).1 :: rngRun ops (crtRand st).2
  | .time :: ops, st => rngRun ops st
  | .timeCast :: ops, st => rngRun ops st
  | .randMax :: ops, st => rngRun ops st

/-- Extracts, from the list of returned values of a call sequence, the
values returned by the `Rand` calls, in order. -/
def randOuts : List Op → List Out → List Out
  | .randOp :: ops, o :: outs => o :: randOuts ops outs
  | _ :: ops, _ :: outs => randOuts ops outs
  | _, _ => []

/-- Spec-side definition of the narrow time, written from the spec's
words: the wide value reduced mod `2^32` and reinterpreted as a signed
32-bit value. -/
def specNarrow (t : Int) : Int :=
  let r := t % 2 ^ 32
  if r < 2 ^ 31 then r else r - 2 ^ 32

/-- The integer carried by a returned value (`0` for `void`). -/
def outInt : Out → Int
  | .int64 v => v
  | .int32 v => v
  | .unit => 0

/-- Values returned by `n` successive `Time` calls. -/
def timeSeq (σ : ProcState) (n : Nat) : List Int :=
  ((run (List.replicate n Op.time) σ).1).map outInt

/-- A clock oracle whose readings all fit in the signed 64-bit
`time_t`. -/
def clockInRange (c : Nat → Int) : Prop :=
  ∀ i, -(2 ^ 63) ≤ c i ∧ c i < 2 ^ 63

/-- Concrete process state used to evaluate the model on explicit
inputs. -/
def σ0 : ProcState := { rng := 0, clock := fun _ => 1000, reads := 0 }

lemma run_replicate_randOp (n : Nat) : ∀ σ : ProcState,
    (run (List.replicate n Op.randOp) σ).1
      = (randList σ.rng n).map (fun v => Out.int32 (Int.ofNat v)) := by
  induction n with
  | zero => intro σ; rfl
  | succ n ih =>
      intro σ
      simp [List.replicate_succ, run, step, randList, ih]

lemma randList_mem_lt {st n u : Nat} (h : u ∈ randList st n) : u < 2 ^ 15 := by
  induction n generalizing st with
  | zero => simp [randList] at h
  | succ n ih =>
      simp only [randList, List.mem_cons] at h
      rcases h with h | h
      · subst h
        exact Nat.mod_lt _ (by norm_num)
      · exact ih h

/-- C1: the values returned by `SRand(s)` followed by `n` calls to
`Rand()` are the same in any two runs, whatever the prior generator
word and whatever clock each run observes: the draws are a
deterministic function of the seed and the call order only. -/
theorem srand_rand_deterministic (s n : Nat) (σ1 σ2 : ProcState) :
    (run (Op.srandOp s :: List.replicate n Op.randOp) σ1).1
      = (run (Op.srandOp s :: List.replicate n Op.randOp) σ2).1 := by
  simp [run, step, run_replicate_randOp]

/-- C3: after `SRand(s)`, every value returned by any of the `n`
subsequent `Rand()` calls lies in `[0, RandMax()]`. -/
theorem rand_in_range (s n : Nat) (σ : ProcState) (v : Int)
    (h : Out.int32 v ∈ (run (Op.srandOp s :: List.replicate n Op.randOp) σ).1) :
    0 ≤ v ∧ v ≤ Int.ofNat RAND_MAX := by
  simp only [run, step, run_replicate_randOp, List.mem_cons, List.mem_map] at h
  rcases h with h | ⟨u, hu, he⟩
  · exact absurd h (by simp)
  · obtain rfl : v = Int.ofNat u := (Out.int32.inj he).symm
    have hlt : u < 2 ^ 15 := randList_mem_lt hu
    refine ⟨Int.ofNat_nonneg u, ?_⟩
    have : u ≤ RAND_MAX := by
      have : u < 32768 := by simpa using hlt
      simp [RAND_MAX]
      omega
    exact Int.ofNat_le.mpr this

/-- Witness for C3: the first draw after `SRand(1)` is `41`, and it
lies in `[0, RandMax()]`. -/
theorem rand_in_range_witness : 0 ≤ (41 : Int) ∧ (41 : Int) ≤ Int.ofNat RAND_MAX :=
  rand_in_range 1 2 σ0 41 (by decide)

/-- C4: `RandMax()` returns the same non-negative constant at every
process state, so its value is unaffected by any interleaved calls,
and the call leaves the state untouched. -/
theorem randMax_constant (σ : ProcState) :
    (step Op.randMax σ).1 = Out.int32 (Int.ofNat RAND_MAX)
    ∧ (step Op.randMax σ).2 = σ ∧ 0 ≤ Int.ofNat RAND_MAX :=
  ⟨rfl, rfl, by simp⟩

/-- C7: every call of every operation returns normally: running any
sequence of calls yields exactly one returned value per call, with no
error outcome in the return type. -/
theorem run_total (ops : List Op) (σ : ProcState) :
    ((run ops σ).1).length = ops.length := by
  induction ops generalizing σ with
  | nil => rfl
  | cons op ops ih => simp [run, ih]

/-- C9: calling `SRand(s)` twice in a row leaves the process in the
same state as calling it once, so every subsequent sequence of
`Rand()` draws is identical in the two cases. -/
theorem srand_idempotent (s : Nat) (σ : ProcState) :
    (step (Op.srandOp s) ((step (Op.srandOp s) σ).2)).2 = (step (Op.srandOp s) σ).2
    ∧ ∀ n, (run (List.replicate n Op.randOp) ((step (Op.srandOp s) ((step (Op.srandOp s) σ).2)).2)).1
        = (run (List.replicate n Op.randOp) ((step (Op.srandOp s) σ).2)).1 := by
  exact ⟨rfl, fun n => rfl⟩

/-- C10: the generator bound is at least 32767 (the C minimum for
`RAND_MAX`), it is representable in a signed 32-bit integer, and every
`rand` draw is at most the bound and below `2^31`, so it fits the
declared `int` return type without truncation. -/
theorem randMax_lower_bound :
    32767 ≤ RAND_MAX ∧ RAND_MAX < 2 ^ 31
    ∧ ∀ st, (crtRand st).1 ≤ RAND_MAX ∧ (crtRand st).1 < 2 ^ 31 := by
  refine ⟨le_refl _, by norm_num [RAND_MAX], fun st => ?_⟩
  have h : (crtRand st).1 < 32768 := by
    simpa [crtRand] using Nat.mod_lt (crtNext st / 2 ^ 16) (y := 2 ^ 15) (by norm_num)
  constructor
  · simp only [RAND_MAX]
    omega
  · have h31 : (32768 : Nat) ≤ 2 ^ 31 := by norm_num
    omega

/-- C2: on one read of the platform clock, `TimeCast()` returns
exactly the value `Time()` would return on that same read, reduced mod
`2^32` and reinterpreted as a signed 32-bit value. -/
theorem timeCast_eq_narrow_time (σ : ProcState) :
    (step Op.time σ).1 = Out.int64 (σ.clock σ.reads)
    ∧ (step Op.timeCast σ).1 = Out.int32 (specNarrow (σ.clock σ.reads)) := by
  refine ⟨rfl, ?_⟩
  simp [step, toInt32, specNarrow]

/-- C5: `Time()` returns, unchanged, the epoch-seconds reading of the
platform clock, and the value fits the signed 64-bit return type
whenever the clock produces `time_t` values. -/
theorem time_returns_clock (σ : ProcState) (h : clockInRange σ.clock) :
    (step Op.time σ).1 = Out.int64 (σ.clock σ.reads)
    ∧ -(2 ^ 63) ≤ σ.clock σ.reads ∧ σ.clock σ.reads < 2 ^ 63 :=
  ⟨rfl, (h σ.reads).1, (h σ.reads).2⟩

/-- Witness for C5 at the concrete state whose clock always reads
1000. -/
theorem time_returns_clock_witness :
    (step Op.time σ0).1 = Out.int64 (σ0.clock σ0.reads)
    ∧ -(2 ^ 63) ≤ σ0.clock σ0.reads ∧ σ0.clock σ0.reads < 2 ^ 63 :=
  time_returns_clock σ0 (fun i => ⟨by norm_num [σ0], by norm_num [σ0]⟩)

lemma run_replicate_time (n : Nat) : ∀ σ : ProcState,
    (run (List.replicate n Op.time) σ).1
      = (List.range n).map (fun k => Out.int64 (σ.clock (σ.reads + k))) := by
  induction n with
  | zero => intro σ; rfl
  | succ n ih =>
      intro σ
      rw [List.replicate_succ]
      simp only [run, step, ih, List.range_succ_eq_map, List.map_cons, List.map_map]
      refine congrArg₂ List.cons (by simp) ?_
      have he : (fun k => Out.int64 (σ.clock (σ.reads + 1 + k)))
          = (fun k => Out.int64 (σ.clock (σ.reads + k))) ∘ Nat.succ := by
        funext k
        simp only [Function.comp]
        congr 2
        omega
      rw [he]

/-- C6: across any sequence of `n` successive `Time()` calls, if the
platform clock does not run backwards then the returned values are
non-decreasing in call order. -/
theorem time_monotone (σ : ProcState) (n : Nat)
    (h : ∀ i j, i ≤ j → σ.clock i ≤ σ.clock j) :
    List.Pairwise (fun a b => a ≤ b) (timeSeq σ n) := by
  unfold timeSeq
  rw [run_replicate_time, List.map_map]
  rw [List.pairwise_map]
  exact (List.pairwise_lt_range n).imp
    (fun hab => h _ _ (Nat.add_le_add_left (Nat.le_of_lt hab) _))

/-- Witness for C6: with a constant clock, three `Time()` calls return
a non-decreasing sequence. -/
theorem time_monotone_witness : List.Pairwise (fun a b => a ≤ b) (timeSeq σ0 3) :=
  time_monotone σ0 3 (fun i j hij => by norm_num [σ0])

lemma randOuts_run (ops : List Op) : ∀ σ : ProcState,
    randOuts ops (run ops σ).1 = (rngRun ops σ.rng).map (fun v => Out.int32 (Int.ofNat v)) := by
  induction ops with
  | nil => intro σ; rfl
  | cons op ops ih =>
      intro σ
      cases op <;> simp [run, step, randOuts, rngRun, ih]

lemma rngRun_filter (ops : List Op) : ∀ st, rngRun (ops.filter isRngOp) st = rngRun ops st := by
  induction ops with
  | nil => intro st; rfl
  | cons op ops ih =>
      intro st
      cases op <;> simp [List.filter, isRngOp, rngRun, ih]

/-- C8: `Time`, `TimeCast` and `RandMax` leave the generator word
unchanged, and the values returned by the `Rand` calls of any call
sequence equal those of the same sequence with every `Time`,
`TimeCast` and `RandMax` call removed. -/
theorem non_rng_ops_frame :
    (∀ σ : ProcState, (step Op.time σ).2.rng = σ.rng
      ∧ (step Op.timeCast σ).2.rng = σ.rng
      ∧ (step Op.randMax σ).2.rng = σ.rng)
    ∧ ∀ (ops : List Op) (σ : ProcState),
        randOuts ops (run ops σ).1
          = randOuts (ops.filter isRngOp) (run (ops.filter isRngOp) σ).1 := by
  refine ⟨fun σ => ⟨rfl, rfl, rfl⟩, fun ops σ => ?_⟩
  rw [randOuts_run, randOuts_run, rngRun_filter]

end Wrapper
